import Mathlib

/-!
Verification development for the FRB repository's catalog utilities
(`frb/surveys/catalog_utils.py`) and nebular-line analysis
(`frb/galaxies/nebular.py`).

Tables are shallowly embedded as association lists from column names to
columns of rational values.  Floating-point arithmetic is embedded as exact
arithmetic over `ℚ` (for the catalog code, with the map `x ↦ 10^x`
abstracted as a function parameter `pow10`) and over `ℝ` (for the nebular
code, where `10^x` and `log10` are `Real.rpow` and `Real.logb`).
Angular separations computed by astropy's `SkyCoord.separation` are
abstracted as a function parameter, since astropy is an external
collaborator.  NumPy's `argsort` is embedded as a stable sort.
-/

/-! ### Character-list string utilities

Python's `sub in s` substring test, `str.replace` and `sorted` on strings
are embedded as functions over `String.data` character lists so that they
evaluate inside the kernel. -/

/-- `startsWithChars l p` holds when the character list `l` begins with `p`. -/
def startsWithChars : List Char → List Char → Bool
  | _, [] => true
  | [], _ :: _ => false
  | a :: as, b :: bs => a == b && startsWithChars as bs

/-- `hasSubChars p l`: the pattern `p` occurs as a contiguous run inside `l`
(Python's `p in l` on strings). -/
def hasSubChars (p : List Char) : List Char → Bool
  | [] => startsWithChars [] p
  | a :: as => startsWithChars (a :: as) p || hasSubChars p as

/-- Python's `sub in s` substring containment test. -/
def strHasSub (sub s : String) : Bool := hasSubChars sub.data s.data

/-- Replace every non-overlapping occurrence of `pat` by `rep`, scanning left
to right (Python's `str.replace` on the underlying character list).  The
first argument is recursion fuel: every step consumes at least one input
character, so starting the fuel at the input length makes it innocuous; it
only keeps the recursion structural. -/
def replaceChars (pat rep : List Char) : ℕ → List Char → List Char
  | 0, l => l
  | _ + 1, [] => []
  | fuel + 1, a :: as =>
    if pat ≠ [] ∧ startsWithChars (a :: as) pat then
      rep ++ replaceChars pat rep fuel (List.drop (pat.length - 1) as)
    else
      a :: replaceChars pat rep fuel as

/-- Python's `s.replace(pat, rep)`. -/
def strReplace (s pat rep : String) : String :=
  ⟨replaceChars pat.data rep.data s.data.length s.data⟩

/-- Lexicographic strict comparison of character lists by code point
(Python's `<` on strings). -/
def strLtChars : List Char → List Char → Bool
  | [], [] => false
  | [], _ :: _ => true
  | _ :: _, [] => false
  | a :: as, b :: bs =>
    if a.val < b.val then true
    else if b.val < a.val then false
    else strLtChars as bs

/-- Non-strict string comparison used by the embedded `sorted`. -/
def strLeb (a b : String) : Bool := strLtChars a.data b.data || a == b

/-- Insert into a list sorted by the Boolean comparator `le` (stable). -/
def insertLe {α : Type} (le : α → α → Bool) (x : α) : List α → List α
  | [] => [x]
  | y :: rest => if le x y then x :: y :: rest else y :: insertLe le x rest

/-- Stable insertion sort by a Boolean comparator; `sortedBy strLeb` embeds
Python's `sorted` on a list of strings. -/
def sortedBy {α : Type} (le : α → α → Bool) : List α → List α
  | [] => []
  | x :: rest => insertLe le x (sortedBy le rest)

/-! ### Stable argsort (NumPy `np.argsort` + `np.searchsorted`) -/

/-- Index/value pairs `(i, l[i])` of a list, used to embed `np.argsort`. -/
def enumPairs {α : Type} : List α → List (ℕ × α)
  | [] => []
  | x :: rest => (0, x) :: (enumPairs rest).map (fun p => (p.1 + 1, p.2))

/-- Order on index/value pairs: by value, ties broken by original index.
Sorting `enumPairs` by this order embeds a stable `np.argsort`. -/
def pairLE {α : Type} [LinearOrder α] (p q : ℕ × α) : Prop :=
  p.2 < q.2 ∨ (p.2 = q.2 ∧ p.1 ≤ q.1)

instance pairLE.decRel {α : Type} [LinearOrder α] : DecidableRel (pairLE (α := α)) :=
  fun p q => inferInstanceAs (Decidable (p.2 < q.2 ∨ (p.2 = q.2 ∧ p.1 ≤ q.1)))

instance pairLE.isTotal {α : Type} [LinearOrder α] : IsTotal (ℕ × α) pairLE := by
  constructor
  intro p q
  rcases lt_trichotomy p.2 q.2 with h | h | h
  · exact Or.inl (Or.inl h)
  · rcases Nat.le_total p.1 q.1 with h1 | h1
    · exact Or.inl (Or.inr ⟨h, h1⟩)
    · exact Or.inr (Or.inr ⟨h.symm, h1⟩)
  · exact Or.inr (Or.inl h)

instance pairLE.isTrans {α : Type} [LinearOrder α] : IsTrans (ℕ × α) pairLE := by
  constructor
  rintro p q r (h1 | ⟨h1, h1'⟩) (h2 | ⟨h2, h2'⟩)
  · exact Or.inl (h1.trans h2)
  · exact Or.inl (h2 ▸ h1)
  · exact Or.inl (h1 ▸ h2)
  · exact Or.inr ⟨h1.trans h2, h1'.trans h2'⟩

/-- `np.argsort`, embedded as a stable sort of the index/value pairs: the
list of original indices in ascending order of value, ties by index. -/
def argsort {α : Type} [LinearOrder α] (l : List α) : List ℕ :=
  (List.insertionSort pairLE (enumPairs l)).map Prod.fst

/-- `np.searchsorted(sortedVals, v)` (left side): for an ascending-sorted
list this is the number of entries strictly below `v`, i.e. the leftmost
insertion position. -/
def searchsorted {α : Type} [LinearOrder α] (sortedVals : List α) (v : α) : ℕ :=
  sortedVals.countP (fun x => decide (x < v))

/-- First index of the minimum of a list (NumPy `np.argmin`). -/
def argminIdx : List ℚ → ℕ
  | [] => 0
  | [_] => 0
  | x :: y :: rest =>
    let j := argminIdx (y :: rest)
    if x ≤ (y :: rest).getD j 0 then 0 else j + 1

/-- First index of the maximum of a list (NumPy `np.argmax`). -/
def argmaxIdx : List ℚ → ℕ
  | [] => 0
  | [_] => 0
  | x :: y :: rest =>
    let j := argmaxIdx (y :: rest)
    if x ≥ (y :: rest).getD j 0 then 0 else j + 1

/-- NumPy boolean-mask indexing `l[mask]`. -/
def maskFilter {β : Type} (mask : List Bool) (l : List β) : List β :=
  (List.zip mask l).filterMap (fun p => if p.1 then some p.2 else none)

/-- Three-list pointwise zip, truncating at the shortest list. -/
def zipWith3 {α β γ δ : Type} (f : α → β → γ → δ) : List α → List β → List γ → List δ
  | a :: as, b :: bs, c :: cs => f a b c :: zipWith3 f as bs cs
  | _, _, _ => []

/-- First index at which `v` occurs in a list (0 past the end if absent). -/
def firstIdx (v : ℤ) : List ℤ → ℕ
  | [] => 0
  | x :: rest => if x = v then 0 else firstIdx v rest + 1

/-! ### Table model

An astropy `Table` is embedded as an association list from column names to
columns; a column is the list of its per-row rational values. -/

/-- A photometric table: columns keyed by name, values by row. -/
abbrev Table : Type := List (String × List ℚ)

/-- The column names of a table. -/
def colnames (t : Table) : List String := t.map Prod.fst

/-- Read a column by name (empty when absent). -/
def getCol (t : Table) (c : String) : List ℚ :=
  ((t.find? (fun p => p.1 == c)).map Prod.snd).getD []

/-- Assign a column: replace it when present, append it otherwise
(astropy's `table[name] = values`). -/
def setCol (t : Table) (c : String) (vals : List ℚ) : Table :=
  if t.any (fun p => p.1 == c) then
    t.map (fun p => if p.1 == c then (c, vals) else p)
  else
    t ++ [(c, vals)]

/-- astropy's `table.rename_column(old, new)`. -/
def renameCol (t : Table) (old new : String) : Table :=
  t.map (fun p => if p.1 == old then (new, p.2) else p)

/-- Row-level fancy indexing `table[idx]`: every column reindexed by `idx`. -/
def reindex (t : Table) (idx : List ℕ) : Table :=
  t.map (fun p => (p.1, idx.map (fun i => p.2.getD i 0)))

/-! ### `frb/surveys/catalog_utils.py` -/

/-- `sort_by_separation(catalog, coord, radec, add_sep)`.

`sepFn ra dec` abstracts astropy's
`coord.separation(SkyCoord(ra, dec)).to('arcmin')` for a fixed reference
coordinate `coord`.  The source mutates `catalog` in place when
`add_sep` is true (`catalog['separation'] = seps`), then builds a fresh
sorted table `catalog[isrt]`; the embedding threads that state explicitly
and returns the pair (caller's table after the call, sorted table).
`none` embeds the `IOError` raised when an RA/DEC column is missing. -/
def sort_by_separation (sepFn : ℚ → ℚ → ℚ) (catalog : Table) (radec : String × String)
    (add_sep : Bool) : Option (Table × Table) :=
  if radec.1 ∈ colnames catalog ∧ radec.2 ∈ colnames catalog then
    let seps := List.zipWith sepFn (getCol catalog radec.1) (getCol catalog radec.2)
    let isrt := argsort seps
    let catalog1 := if add_sep then setCol catalog "separation" seps else catalog
    some (catalog1, reindex catalog1 isrt)
  else
    none

/-- `match_ids(IDs, match_IDs, require_in_match)`: the NumPy pipeline
`rows[in_match] = argsort(match_IDs)[searchsorted(match_IDs, IDs[in_match],
sorter=argsort(match_IDs))]`, with unmatched rows left at `-1`.
`none` embeds the `IOError` raised when `require_in_match` and some input
id is absent from `match_IDs`. -/
def match_ids (IDs match_IDs : List ℤ) (require_in_match : Bool) : Option (List ℤ) :=
  if require_in_match && IDs.any (fun v => !(match_IDs.contains v)) then
    none
  else
    let xsorted := argsort match_IDs
    let sortedVals := xsorted.map (fun i => match_IDs.getD i 0)
    some (IDs.map (fun v =>
      if match_IDs.contains v then
        ((xsorted.getD (searchsorted sortedVals v) 0 : ℕ) : ℤ)
      else
        -1))

/-- The content of the formatted strings produced by `summarize_catalog`:
the source-count line, the brightest-source line and the closest-source
line, with the numbers that are interpolated into each format string. -/
inductive SummaryMsg : Type where
  | count : String → ℕ → ℚ → SummaryMsg
  | brightest : String → String → ℚ → SummaryMsg
  | closest : String → ℚ → String → ℚ → SummaryMsg
deriving DecidableEq

/-- `summarize_catalog(frbc, catalog, summary_radius, photom_column,
magnitude)`.  `sepFn ra dec` abstracts
`frbc['coord'].separation(coords).to('arcsec')` for the fixed FRB candidate
coordinate; `survey` is `catalog.meta['survey']` and `summary_radius` is in
arcsec.  Each emitted string is embedded as the `SummaryMsg` holding the
values interpolated into it. -/
def summarize_catalog (sepFn : ℚ → ℚ → ℚ) (survey : String) (catalog : Table)
    (summary_radius : ℚ) (photom_column : String) (magnitude : Bool) : List SummaryMsg :=
  let seps := List.zipWith sepFn (getCol catalog "ra") (getCol catalog "dec")
  let in_radius := seps.map (fun s => decide (s < summary_radius))
  let head := [SummaryMsg.count survey (in_radius.countP id) summary_radius]
  if in_radius.any id then
    let vals := maskFilter in_radius (getCol catalog photom_column)
    let sepsIn := maskFilter in_radius seps
    let brightest := if magnitude then argminIdx vals else argmaxIdx vals
    let closest := argminIdx sepsIn
    head ++ [SummaryMsg.brightest survey photom_column (vals.getD brightest 0),
             SummaryMsg.closest survey (sepsIn.getD closest 0) photom_column
               (vals.getD brightest 0)]
  else
    head

/-- `np.setdiff1d(a, b)`: the sorted unique values of `a` not in `b`. -/
def setdiff1d (a b : List String) : List String :=
  sortedBy strLeb ((a.filter (fun x => !(b.contains x))).dedup)

/-- `_detect_mag_cols(photometry_table)`.  `valid_filters` (defined in
`frb/galaxies/defs.py`, outside the analyzed sources) is a parameter: the
registry of recognized photometric filter names.  Returns the recognized
magnitude columns and the recognized magnitude-error columns present in
the table, each in registry order. -/
def detect_mag_cols (valid_filters : List String) (photometry_table : Table) :
    List String × List String :=
  let allcols := colnames photometry_table
  ((valid_filters.filter (fun f => allcols.contains f)),
   ((valid_filters.map (fun f => f ++ "_err")).filter (fun f => allcols.contains f)))

/-- One iteration of a conversion loop in `convert_mags_to_flux` over a
(magnitude column, error column, zero point) triple: masks from the current
`fluxtable` state `ft`, magnitudes and magnitude errors read from the
original `photometry_table` `orig`, exactly as in the source:

    badmags = fluxtable[mag] < 0
    fluxtable[mag][badmags] = -99.0
    fluxtable[mag][~badmags] = fnu0*10**(-photometry_table[mag][~badmags]/2.5)*1000*convert
    baderrs = fluxtable[err] < 0
    fluxtable[err][baderrs] = -99.0
    fluxtable[err][~baderrs] = fluxtable[mag][~baderrs]*(10**(photometry_table[err][~baderrs]/2.5)-1)

`pow10 x` abstracts the float `10**x`; `convert` is `units.mJy.to(fluxunits)`. -/
def convertPair (pow10 : ℚ → ℚ) (convert : ℚ) (orig : Table) (ft : Table)
    (mag err : String) (fnu0 : ℚ) : Table :=
  let newMag := List.zipWith
    (fun cur om => if cur < 0 then (-99 : ℚ) else fnu0 * pow10 (-om / 2.5) * 1000 * convert)
    (getCol ft mag) (getCol orig mag)
  let ft1 := setCol ft mag newMag
  let newErr := zipWith3
    (fun cur fl oe => if cur < 0 then (-99 : ℚ) else fl * (pow10 (oe / 2.5) - 1))
    (getCol ft1 err) newMag (getCol orig err)
  setCol ft1 err newErr

/-- `convert_mags_to_flux(photometry_table, fluxunits)`.

`pow10 x` abstracts the float `10**x` and `convert` abstracts
`units.mJy.to(fluxunits)` (`1` for the default mJy); `valid_filters` is the
filter registry passed through to column detection.  The three loops are
the source's WISE loop (per-band zero points, with the `W`→`WISE` column
rename), VISTA loop (per-band zero points) and the generic loop over
`np.setdiff1d(mag_cols, wisecols)` with the AB zero point `3630.7805`. -/
def convert_mags_to_flux (pow10 : ℚ → ℚ) (convert : ℚ) (valid_filters : List String)
    (photometry_table : Table) : Table :=
  let dm := detect_mag_cols valid_filters photometry_table
  let mag_cols := dm.1
  let mag_errcols := dm.2
  let wisecols := sortedBy strLeb (mag_cols.filter (fun c => strHasSub "W" c))
  let wise_errcols := sortedBy strLeb (mag_errcols.filter (fun c => strHasSub "W" c))
  let vistacols := sortedBy strLeb (mag_cols.filter (fun c => strHasSub "VISTA" c))
  let vista_errcols := sortedBy strLeb (mag_errcols.filter (fun c => strHasSub "VISTA" c))
  let wise_fnu0 : List ℚ := [309.54, 171.787, 31.674, 8.363]
  let vista_fnu0 : List ℚ := [2087.32, 1554.03, 1030.40, 674.83]
  let ft1 := (zipWith3 (fun m e f0 => (m, e, f0)) wisecols wise_errcols wise_fnu0).foldl
    (fun ft t =>
      let ft1 := convertPair pow10 convert photometry_table ft t.1 t.2.1 t.2.2
      if strHasSub "WISE" t.1 then ft1
      else renameCol (renameCol ft1 t.1 (strReplace t.1 "W" "WISE"))
             t.2.1 (strReplace t.2.1 "W" "WISE"))
    photometry_table
  let ft2 := (zipWith3 (fun m e f0 => (m, e, f0)) vistacols vista_errcols vista_fnu0).foldl
    (fun ft t => convertPair pow10 convert photometry_table ft t.1 t.2.1 t.2.2) ft1
  let other_mags := setdiff1d mag_cols wisecols
  let other_errs := setdiff1d mag_errcols wise_errcols
  (other_mags.zip other_errs).foldl
    (fun ft t => convertPair pow10 convert photometry_table ft t.1 t.2 3630.7805) ft2

/-! ### `frb/galaxies/nebular.py`

Line-flux dictionaries are embedded as functions `String → ℝ`; the
extinction curve interpolant `alAV` (loaded from the `MW_dust.dat` data
file, outside the analyzed sources) and the linetools rest-wavelength
lookup `wrest` are external collaborators, abstracted as function
parameters.  Astropy units are erased: fluxes are in erg/s/cm², the
luminosity distance returned by the cosmology is in cm, luminosities in
erg/s. -/

/-- `Ha_Hb_intrin = 2.8` (intrinsic Hα/Hβ ratio, Osterbrock). -/
def Ha_Hb_intrin : ℝ := 2.8

/-- `Ha_conversion = 7.9e-42 Msun/yr` (Kennicutt 1998), units erased. -/
def Ha_conversion : ℝ := 7.9e-42

/-- `calc_dust_extinct(neb_lines, method, curve)`: the visual extinction
`A_V = 2.5*log10(Ha_Hb_intrin/(F_Halpha/F_Hbeta)) / (alAV(6564.6) - alAV(4862.7))`
for `method = 'Ha/Hb'`; `none` embeds the `IOError` raised for any other
method.  `alAV` is the loaded extinction-curve interpolant. -/
noncomputable def calc_dust_extinct (alAV : ℝ → ℝ) (neb_lines : String → ℝ)
    (method : String) : Option ℝ :=
  if method = "Ha/Hb" then
    let wave1 : ℝ := 6564.6
    let wave2 : ℝ := 4862.7
    let F1_obs := neb_lines "Halpha"
    let F2_obs := neb_lines "Hbeta"
    let a1AV := alAV wave1
    let a2AV := alAV wave2
    some (2.5 * Real.logb 10 (Ha_Hb_intrin / (F1_obs / F2_obs)) / (a1AV - a2AV))
  else
    none

/-- `calc_lum(neb_lines, line, z, cosmo, AV, curve)`: the pair
(luminosity, luminosity error).  `wrest` abstracts the linetools
rest-wavelength lookup (Å); `cosmo z` abstracts
`cosmo.luminosity_distance(z)` in cm; `AV = none` embeds the Python default
`AV=None`.  The error is the `-999 erg/s` sentinel unless the input flux
error is strictly positive. -/
noncomputable def calc_lum (wrest : String → ℝ) (alAV : ℝ → ℝ) (neb_lines : String → ℝ)
    (line : String) (z : ℝ) (cosmo : ℝ → ℝ) (AV : Option ℝ) : ℝ × ℝ :=
  let wave := wrest line
  let al : ℝ := match AV with
    | some av => av * alAV wave
    | none => 0
  let DL := cosmo z
  let flux := neb_lines line
  let Lum := flux * (10 : ℝ) ^ (al / 2.5) * (4 * Real.pi * DL ^ 2)
  let Lum_err :=
    if neb_lines (line ++ "_err") > 0 then
      neb_lines (line ++ "_err") * (10 : ℝ) ^ (al / 2.5) * (4 * Real.pi * DL ^ 2)
    else
      -999
  (Lum, Lum_err)

/-- `calc_SFR(neb_lines, method, z, cosmo, AV, curve)`: the star-formation
rate `Lum * conversion` with the Hα line and `Ha_conversion` for
`method = 'Ha'`, the Hβ line and `Ha_conversion * Ha_Hb_intrin` for
`method = 'Hb'`; `none` embeds the `IOError` raised for any other
method. -/
noncomputable def calc_SFR (wrest : String → ℝ) (alAV : ℝ → ℝ) (neb_lines : String → ℝ)
    (method : String) (z : ℝ) (cosmo : ℝ → ℝ) (AV : Option ℝ) : Option ℝ :=
  if method = "Ha" then
    some ((calc_lum wrest alAV neb_lines "Halpha" z cosmo AV).1 * Ha_conversion)
  else if method = "Hb" then
    some ((calc_lum wrest alAV neb_lines "Hbeta" z cosmo AV).1 * (Ha_conversion * Ha_Hb_intrin))
  else
    none

/-! ### Claims about `nebular.py` -/

/-- Claim C8: `calc_lum` returns `L = F * 10^(al/2.5) * 4*pi*D_L^2` with
`D_L = cosmo z`; the dust-correction exponent is `al = A_V * alAV(wrest line)`
when `A_V` is supplied and the correction factor is exactly 1 (exponent 0)
when it is not. -/
theorem C8_calc_lum_luminosity (wrest neb_lines : String → ℝ) (alAV : ℝ → ℝ) (line : String)
    (z : ℝ) (cosmo : ℝ → ℝ) (av : ℝ) :
    (calc_lum wrest alAV neb_lines line z cosmo (some av)).1
      = neb_lines line * (10 : ℝ) ^ ((av * alAV (wrest line)) / 2.5)
          * (4 * Real.pi * (cosmo z) ^ 2)
  ∧ (calc_lum wrest alAV neb_lines line z cosmo none).1
      = neb_lines line * (4 * Real.pi * (cosmo z) ^ 2) := by
  constructor
  · rfl
  · show neb_lines line * (10 : ℝ) ^ ((0 : ℝ) / 2.5) * (4 * Real.pi * (cosmo z) ^ 2) = _
    rw [zero_div, Real.rpow_zero, mul_one]

/-- Claim C4: `calc_lum`'s luminosity error is exactly `-999` whenever the
input flux error is non-positive (sentinel passthrough), and for a positive
flux error it scales by exactly the factor that maps flux to luminosity. -/
theorem C4_calc_lum_error_sentinel (wrest neb_lines : String → ℝ) (alAV : ℝ → ℝ) (line : String)
    (z : ℝ) (cosmo : ℝ → ℝ) (AV : Option ℝ) :
    ∃ factor : ℝ,
      (calc_lum wrest alAV neb_lines line z cosmo AV).1 = neb_lines line * factor
    ∧ (neb_lines (line ++ "_err") ≤ 0 →
        (calc_lum wrest alAV neb_lines line z cosmo AV).2 = -999)
    ∧ (0 < neb_lines (line ++ "_err") →
        (calc_lum wrest alAV neb_lines line z cosmo AV).2
          = neb_lines (line ++ "_err") * factor) := by
  classical
  refine ⟨(10 : ℝ) ^ ((match AV with | some av => av * alAV (wrest line) | none => 0) / 2.5)
      * (4 * Real.pi * (cosmo z) ^ 2), ?_, ?_, ?_⟩
  · show neb_lines line * _ * _ = _
    ring
  · intro h
    show (if 0 < neb_lines (line ++ "_err") then _ else (-999 : ℝ)) = -999
    rw [if_neg (not_lt.mpr h)]
  · intro h
    show (if 0 < neb_lines (line ++ "_err") then
        neb_lines (line ++ "_err") * _ * _ else (-999 : ℝ)) = _
    rw [if_pos h]
    ring

/-- Witness for C4 at a concrete input: flux error `-999` (and flux 7)
yields luminosity error exactly `-999`. -/
theorem C4_calc_lum_error_sentinel_witness :
    (calc_lum (fun _ => 6564.6) (fun _ => 1)
      (fun s => if s = "Halpha_err" then (-999 : ℝ) else 7) "Halpha" 1 (fun _ => 3) none).2
      = -999 := by
  obtain ⟨f, _, h2, _⟩ := C4_calc_lum_error_sentinel (fun _ => 6564.6)
    (fun s => if s = "Halpha_err" then -999 else 7) (fun _ => 1) "Halpha" 1 (fun _ => 3) none
  apply h2
  have : ("Halpha" ++ "_err" : String) = "Halpha_err" := by decide
  rw [this]
  norm_num

/-- Claim C6: `calc_dust_extinct` with the `Ha/Hb` method returns
`A_V = 2.5*log10(2.8/(F_Halpha/F_Hbeta)) / (alAV(6564.6) - alAV(4862.7))`,
which is 0 exactly when the observed ratio equals the intrinsic 2.8 (and is
returned unclamped otherwise). -/
theorem C6_calc_dust_extinct_formula (alAV : ℝ → ℝ) (neb_lines : String → ℝ)
    (hb : neb_lines "Hbeta" ≠ 0) :
    calc_dust_extinct alAV neb_lines "Ha/Hb"
      = some (2.5 * Real.logb 10 (2.8 / (neb_lines "Halpha" / neb_lines "Hbeta"))
          / (alAV 6564.6 - alAV 4862.7))
  ∧ (neb_lines "Halpha" / neb_lines "Hbeta" = 2.8 →
      calc_dust_extinct alAV neb_lines "Ha/Hb" = some 0) := by
  constructor
  · rfl
  · intro h
    show some _ = some 0
    congr 1
    rw [show Ha_Hb_intrin = 2.8 from rfl, h]
    rw [show (2.8 : ℝ) / 2.8 = 1 by norm_num, Real.logb_one]
    rw [mul_zero, zero_div]

/-- Witness for C6 at a concrete input: fluxes `F_Halpha = 2.8`,
`F_Hbeta = 1` (ratio exactly 2.8) give `A_V = 0`. -/
theorem C6_calc_dust_extinct_formula_witness :
    calc_dust_extinct (fun w => w) (fun s => if s = "Halpha" then 2.8 else 1) "Ha/Hb"
      = some 0 := by
  have h := C6_calc_dust_extinct_formula (fun w => w)
    (fun s => if s = "Halpha" then 2.8 else 1) ?_
  · apply h.2
    have h1 : (("Halpha" : String) = "Halpha") = True := by simp
    have h2 : (("Hbeta" : String) = "Halpha") = False := by simp
    simp only [h1, h2, if_true, if_false]
    norm_num
  · have h2 : (("Hbeta" : String) = "Halpha") = False := by simp
    simp only [h2, if_false]
    norm_num

/-- Claim C7: with `F_Halpha = 2.8 * F_Hbeta` and no extinction supplied,
`calc_SFR` returns the same SFR for the `Hb` method as for the `Ha` method
(the Hβ calibration constant is `Ha_conversion * 2.8`). -/
theorem C7_calc_SFR_Hb_eq_Ha (wrest neb_lines : String → ℝ) (alAV : ℝ → ℝ) (z : ℝ) (cosmo : ℝ → ℝ)
    (h : neb_lines "Halpha" = 2.8 * neb_lines "Hbeta") :
    calc_SFR wrest alAV neb_lines "Hb" z cosmo none
      = calc_SFR wrest alAV neb_lines "Ha" z cosmo none := by
  show some _ = some _
  congr 1
  show (calc_lum wrest alAV neb_lines "Hbeta" z cosmo none).1 * (Ha_conversion * Ha_Hb_intrin)
    = (calc_lum wrest alAV neb_lines "Halpha" z cosmo none).1 * Ha_conversion
  have hB := (C8_calc_lum_luminosity wrest neb_lines alAV "Hbeta" z cosmo 0).2
  have hA := (C8_calc_lum_luminosity wrest neb_lines alAV "Halpha" z cosmo 0).2
  rw [hB, hA, h, show Ha_Hb_intrin = 2.8 from rfl]
  ring

/-- Witness for C7 at a concrete input: `F_Halpha = 2.8`, `F_Hbeta = 1`. -/
theorem C7_calc_SFR_Hb_eq_Ha_witness :
    calc_SFR (fun _ => 6564.6) (fun _ => 1) (fun s => if s = "Halpha" then 2.8 else 1)
        "Hb" 1 (fun _ => 3) none
      = calc_SFR (fun _ => 6564.6) (fun _ => 1) (fun s => if s = "Halpha" then 2.8 else 1)
        "Ha" 1 (fun _ => 3) none := by
  apply C7_calc_SFR_Hb_eq_Ha
  have h1 : (("Halpha" : String) = "Halpha") = True := by simp
  have h2 : (("Hbeta" : String) = "Halpha") = False := by simp
  simp only [h1, h2, if_true, if_false]
  norm_num

/-! ### Claims about `catalog_utils.py` -/

/-- Claim C1 (code bug): on a two-source catalog whose closest source
(separation 1, `mag` 5) is not its brightest source (separation 2, `mag` 3),
the closest-source line emitted by `summarize_catalog` carries the
brightest source's value 3, not the closest source's value 5 — even though
the row of the closest source holds `mag` 5. -/
theorem C1_summarize_closest_line_bug :
    summarize_catalog (fun ra _ => ra) "S" [("ra", [1, 2]), ("dec", [0, 0]), ("mag", [5, 3])]
        10 "mag" true
      = [SummaryMsg.count "S" 2 10, SummaryMsg.brightest "S" "mag" 3,
         SummaryMsg.closest "S" 1 "mag" 3]
  ∧ (getCol [("ra", [1, 2]), ("dec", [0, 0]), ("mag", [5, 3])] "mag").getD
      (argminIdx (List.zipWith (fun ra _ => ra)
        (getCol [("ra", [1, 2]), ("dec", [0, 0]), ("mag", [5, 3])] "ra")
        (getCol [("ra", [1, 2]), ("dec", [0, 0]), ("mag", [5, 3])] "dec"))) 0 = 5
  ∧ (3 : ℚ) ≠ 5 := by decide

/-- Reading a column other than the one just assigned is unaffected by the
assignment. -/
theorem getCol_setCol_ne (t : Table) (c c' : String) (vals : List ℚ) (h : c' ≠ c) :
    getCol (setCol t c vals) c' = getCol t c' := by
  have hfind : ∀ u : Table,
      (u.map (fun p => if p.1 == c then (c, vals) else p)).find? (fun p => p.1 == c')
        = u.find? (fun p => p.1 == c') := by
    intro u
    induction u with
    | nil => rfl
    | cons p rest ih =>
      simp only [List.map_cons]
      by_cases hp : p.1 = c
      · have hb : (p.1 == c) = true := beq_iff_eq.mpr hp
        have hb1 : (c == c') = false := beq_eq_false_iff_ne.mpr (fun hcc => h hcc.symm)
        have hb2 : (p.1 == c') = false := beq_eq_false_iff_ne.mpr (by
          rw [hp]
          exact fun hcc => h hcc.symm)
        simp only [List.find?, hb, hb1, hb2, if_true]
        exact ih
      · have hb : (p.1 == c) = false := beq_eq_false_iff_ne.mpr hp
        by_cases hq : p.1 = c'
        · have hb2 : (p.1 == c') = true := beq_iff_eq.mpr hq
          simp only [List.find?, hb, hb2, Bool.false_eq_true, if_false]
        · have hb2 : (p.1 == c') = false := beq_eq_false_iff_ne.mpr hq
          simp only [List.find?, hb, hb2, Bool.false_eq_true, if_false]
          exact ih
  unfold setCol
  by_cases hany : t.any (fun p => p.1 == c)
  · rw [if_pos hany]
    unfold getCol
    rw [hfind t]
  · rw [if_neg hany]
    unfold getCol
    rw [List.find?_append]
    have : ([(c, vals)] : Table).find? (fun p => p.1 == c') = none := by
      simp only [List.find?]
      rw [beq_eq_false_iff_ne.mpr (fun hcc => h hcc.symm)]
    rw [this]
    cases t.find? (fun p => p.1 == c') <;> rfl

/-- The assigned column name is present after the assignment. -/
theorem mem_colnames_setCol (t : Table) (c : String) (vals : List ℚ) :
    c ∈ colnames (setCol t c vals) := by
  unfold setCol
  by_cases hany : t.any (fun p => p.1 == c)
  · rw [if_pos hany]
    obtain ⟨p, hp, hpc⟩ := List.any_eq_true.mp hany
    unfold colnames
    refine List.mem_map.mpr ⟨(c, vals), ?_, rfl⟩
    refine List.mem_map.mpr ⟨p, hp, ?_⟩
    rw [if_pos hpc]
  · rw [if_neg hany]
    unfold colnames
    rw [List.map_append]
    exact List.mem_append_right _ (by simp)

/-- Claim C9: `sort_by_separation` with `add_sep = true` leaves the caller's
catalog mutated in place with a new `separation` column appended (values in
arcmin via `sepFn`), leaves every other column — and hence the input's row
order — unchanged, and additionally returns a fresh table reordered by
ascending separation. -/
theorem C9_sort_by_separation_mutates_input (sepFn : ℚ → ℚ → ℚ) (catalog : Table)
    (h1 : "ra" ∈ colnames catalog) (h2 : "dec" ∈ colnames catalog) :
    ∃ mutated sorted : Table,
      sort_by_separation sepFn catalog ("ra", "dec") true = some (mutated, sorted)
    ∧ mutated = setCol catalog "separation"
        (List.zipWith sepFn (getCol catalog "ra") (getCol catalog "dec"))
    ∧ "separation" ∈ colnames mutated
    ∧ (∀ c : String, c ≠ "separation" → getCol mutated c = getCol catalog c)
    ∧ sorted = reindex mutated
        (argsort (List.zipWith sepFn (getCol catalog "ra") (getCol catalog "dec"))) := by
  refine ⟨_, _, ?_, rfl, mem_colnames_setCol _ _ _,
    fun c hc => getCol_setCol_ne _ _ _ _ hc, rfl⟩
  unfold sort_by_separation
  rw [if_pos ⟨h1, h2⟩]
  rfl

/-- Witness for C9 at a concrete two-row catalog. -/
theorem C9_sort_by_separation_mutates_input_witness :
    ∃ mutated sorted : Table,
      sort_by_separation (fun ra _ => ra) [("ra", [3, 1]), ("dec", [0, 0])] ("ra", "dec") true
        = some (mutated, sorted)
    ∧ mutated = setCol [("ra", [3, 1]), ("dec", [0, 0])] "separation"
        (List.zipWith (fun ra _ => ra) (getCol [("ra", [3, 1]), ("dec", [0, 0])] "ra")
          (getCol [("ra", [3, 1]), ("dec", [0, 0])] "dec"))
    ∧ "separation" ∈ colnames mutated
    ∧ (∀ c : String, c ≠ "separation" → getCol mutated c = getCol [("ra", [3, 1]), ("dec", [0, 0])] c)
    ∧ sorted = reindex mutated
        (argsort (List.zipWith (fun ra _ => ra) (getCol [("ra", [3, 1]), ("dec", [0, 0])] "ra")
          (getCol [("ra", [3, 1]), ("dec", [0, 0])] "dec"))) :=
  C9_sort_by_separation_mutates_input (fun ra _ => ra) [("ra", [3, 1]), ("dec", [0, 0])]
    (by decide) (by decide)

/-- `zipWith3` with the same list as first and third argument collapses to a
two-list `zipWith`. -/
theorem zipWith3_outer_same {α β γ : Type} (g : α → β → α → γ) :
    ∀ (as : List α) (bs : List β),
      zipWith3 g as bs as = List.zipWith (fun a b => g a b a) as bs
  | [], [] => rfl
  | [], _ :: _ => rfl
  | _ :: _, [] => rfl
  | a :: as, b :: bs => by
    show g a b a :: zipWith3 g as bs as = g a b a :: List.zipWith _ as bs
    rw [zipWith3_outer_same g as bs]

set_option maxHeartbeats 1000000 in
/-- Claim C10: the WISE per-band zero points `[309.54, 171.787, 31.674,
8.363]` are zipped against the sorted list of present W-band columns, i.e.
assigned by position rather than by band identity: a table holding only the
`W3` column is converted with 309.54 (the W1 zero point), while in a table
holding `W2` and `W3` the `W2` column gets 309.54 and `W3` gets 171.787. -/
theorem C10_wise_zero_points_positional (pow10 : ℚ → ℚ) (convert m e m2 e2 m3 e3 : ℚ)
    (hm : 0 ≤ m) (hm2 : 0 ≤ m2) (hm3 : 0 ≤ m3) :
    getCol (convert_mags_to_flux pow10 convert ["W1", "W2", "W3", "W4"]
        [("W3", [m]), ("W3_err", [e])]) "WISE3"
      = [309.54 * pow10 (-m / 2.5) * 1000 * convert]
  ∧ getCol (convert_mags_to_flux pow10 convert ["W1", "W2", "W3", "W4"]
        [("W2", [m2]), ("W2_err", [e2]), ("W3", [m3]), ("W3_err", [e3])]) "WISE2"
      = [309.54 * pow10 (-m2 / 2.5) * 1000 * convert]
  ∧ getCol (convert_mags_to_flux pow10 convert ["W1", "W2", "W3", "W4"]
        [("W2", [m2]), ("W2_err", [e2]), ("W3", [m3]), ("W3_err", [e3])]) "WISE3"
      = [171.787 * pow10 (-m3 / 2.5) * 1000 * convert] := by
  refine ⟨?_, ?_, ?_⟩
  · have h : getCol (convert_mags_to_flux pow10 convert ["W1", "W2", "W3", "W4"]
        [("W3", [m]), ("W3_err", [e])]) "WISE3"
        = [if m < 0 then (-99 : ℚ) else 309.54 * pow10 (-m / 2.5) * 1000 * convert] := rfl
    rw [h, if_neg (not_lt.mpr hm)]
  · have h : getCol (convert_mags_to_flux pow10 convert ["W1", "W2", "W3", "W4"]
        [("W2", [m2]), ("W2_err", [e2]), ("W3", [m3]), ("W3_err", [e3])]) "WISE2"
        = [if m2 < 0 then (-99 : ℚ) else 309.54 * pow10 (-m2 / 2.5) * 1000 * convert] := rfl
    rw [h, if_neg (not_lt.mpr hm2)]
  · have h : getCol (convert_mags_to_flux pow10 convert ["W1", "W2", "W3", "W4"]
        [("W2", [m2]), ("W2_err", [e2]), ("W3", [m3]), ("W3_err", [e3])]) "WISE3"
        = [if m3 < 0 then (-99 : ℚ) else 171.787 * pow10 (-m3 / 2.5) * 1000 * convert] := rfl
    rw [h, if_neg (not_lt.mpr hm3)]

/-- Witness for C10 at magnitude 0 in every band, `pow10 = 1`, mJy units. -/
theorem C10_wise_zero_points_positional_witness :
    getCol (convert_mags_to_flux (fun _ => 1) 1 ["W1", "W2", "W3", "W4"]
        [("W3", [0]), ("W3_err", [0])]) "WISE3"
      = [309.54 * 1 * 1000 * 1]
  ∧ getCol (convert_mags_to_flux (fun _ => 1) 1 ["W1", "W2", "W3", "W4"]
        [("W2", [0]), ("W2_err", [0]), ("W3", [0]), ("W3_err", [0])]) "WISE2"
      = [309.54 * 1 * 1000 * 1]
  ∧ getCol (convert_mags_to_flux (fun _ => 1) 1 ["W1", "W2", "W3", "W4"]
        [("W2", [0]), ("W2_err", [0]), ("W3", [0]), ("W3_err", [0])]) "WISE3"
      = [171.787 * 1 * 1000 * 1] :=
  C10_wise_zero_points_positional (fun _ => 1) 1 0 0 0 0 0 0
    (by norm_num) (by norm_num) (by norm_num)

/-- Counterexample to claim C3 as stated: for the recognized column `r`
with magnitude `-1` and magnitude error `1/2` (non-negative), the output
flux is the `-99` sentinel but the output flux error is
`-99 * (pow10(0.2) - 1)` (here `-198` with `pow10 = 3`), not `-99`: the
error column's sentinel is keyed on the sign of the magnitude error, not on
the sign of the magnitude. -/
theorem C3_counterexample_neg_mag_err_column :
    getCol (convert_mags_to_flux (fun _ => 3) 1 ["r"] [("r", [-1]), ("r_err", [1/2])]) "r"
      = [-99]
  ∧ getCol (convert_mags_to_flux (fun _ => 3) 1 ["r"] [("r", [-1]), ("r_err", [1/2])]) "r_err"
      = [-198]
  ∧ ([-198] : List ℚ) ≠ [-99] := by
  refine ⟨?_, ?_, by norm_num⟩
  · have h : getCol (convert_mags_to_flux (fun _ => 3) 1 ["r"] [("r", [-1]), ("r_err", [1/2])]) "r"
        = [if (-1 : ℚ) < 0 then (-99 : ℚ) else 3630.7805 * 3 * 1000 * 1] := rfl
    rw [h]
    norm_num
  · have h : getCol (convert_mags_to_flux (fun _ => 3) 1 ["r"] [("r", [-1]), ("r_err", [1/2])]) "r_err"
        = [if (1/2 : ℚ) < 0 then (-99 : ℚ)
            else (if (-1 : ℚ) < 0 then (-99 : ℚ) else 3630.7805 * 3 * 1000 * 1) * (3 - 1)] := rfl
    rw [h]
    norm_num

set_option maxHeartbeats 1000000 in
/-- Claim C3 as amended: on a table with the recognized magnitude column
`r` and its error column, each output flux entry is `-99` when the input
magnitude is negative and `zero_point * 10^(-mag/2.5)` scaled otherwise,
while each output flux-error entry is `-99` exactly when the input
magnitude error is negative and `flux_out * (10^(mag_err/2.5) - 1)`
otherwise — where `flux_out` is the already-written output flux entry,
which is the `-99` sentinel itself when the magnitude was negative. -/
theorem C3_amended_sentinel_policy (pow10 : ℚ → ℚ) (convert : ℚ) (mags errs : List ℚ) :
    getCol (convert_mags_to_flux pow10 convert ["r"] [("r", mags), ("r_err", errs)]) "r"
      = mags.map (fun m => if m < 0 then (-99 : ℚ)
          else 3630.7805 * pow10 (-m / 2.5) * 1000 * convert)
  ∧ getCol (convert_mags_to_flux pow10 convert ["r"] [("r", mags), ("r_err", errs)]) "r_err"
      = List.zipWith (fun e fl => if e < 0 then (-99 : ℚ) else fl * (pow10 (e / 2.5) - 1))
          errs
          (mags.map (fun m => if m < 0 then (-99 : ℚ)
            else 3630.7805 * pow10 (-m / 2.5) * 1000 * convert)) := by
  constructor
  · have h : getCol (convert_mags_to_flux pow10 convert ["r"] [("r", mags), ("r_err", errs)]) "r"
        = List.zipWith (fun cur om => if cur < 0 then (-99 : ℚ)
            else 3630.7805 * pow10 (-om / 2.5) * 1000 * convert) mags mags := rfl
    rw [h, List.zipWith_same]
  · have h : getCol (convert_mags_to_flux pow10 convert ["r"]
        [("r", mags), ("r_err", errs)]) "r_err"
        = zipWith3 (fun cur fl oe => if cur < 0 then (-99 : ℚ)
            else fl * (pow10 (oe / 2.5) - 1))
          errs
          (List.zipWith (fun cur om => if cur < 0 then (-99 : ℚ)
            else 3630.7805 * pow10 (-om / 2.5) * 1000 * convert) mags mags)
          errs := rfl
    rw [h, zipWith3_outer_same, List.zipWith_same]

set_option maxHeartbeats 1000000 in
/-- Claim C2 (code bug): for a table with the VISTA column `VISTA_J` at
magnitude 0 (with `pow10 = 1` and mJy units), the returned flux is the AB
zero-point conversion `3630.7805 * 10^0 * 1000`, not the VISTA zero-point
conversion `2087.32 * 10^0 * 1000`: the generic loop runs over
`np.setdiff1d(mag_cols, wisecols)`, which removes only the WISE columns,
so it re-converts every VISTA column from the original magnitudes with the
AB zero point, overwriting the VISTA loop's output. -/
theorem C2_vista_zero_point_overwritten :
    getCol (convert_mags_to_flux (fun _ => 1) 1 ["VISTA_J"]
        [("VISTA_J", [0]), ("VISTA_J_err", [0])]) "VISTA_J"
      = [3630.7805 * 1 * 1000 * 1]
  ∧ getCol (convert_mags_to_flux (fun _ => 1) 1 ["VISTA_J"]
        [("VISTA_J", [0]), ("VISTA_J_err", [0])]) "VISTA_J"
      ≠ [2087.32 * 1 * 1000 * 1] := by
  have h : getCol (convert_mags_to_flux (fun _ => 1) 1 ["VISTA_J"]
        [("VISTA_J", [0]), ("VISTA_J_err", [0])]) "VISTA_J"
      = [if (if (0 : ℚ) < 0 then (-99 : ℚ) else 2087.32 * 1 * 1000 * 1) < 0
          then (-99 : ℚ) else 3630.7805 * 1 * 1000 * 1] := rfl
  rw [h]
  norm_num

/-- Every index/value pair of `enumPairs l` reads back from `l`. -/
theorem getD_of_mem_enumPairs {α : Type} (d : α) :
    ∀ (l : List α) (p : ℕ × α), p ∈ enumPairs l → l.getD p.1 d = p.2 := by
  intro l
  induction l with
  | nil => intro p hp; cases hp
  | cons x rest ih =>
    intro p hp
    rcases List.mem_cons.mp hp with h | h
    · rw [h]
      rfl
    · obtain ⟨q, hq, hpq⟩ := List.mem_map.mp h
      rw [← hpq]
      exact ih q hq

/-- The first occurrence of a present value is one of its index/value pairs. -/
theorem firstIdx_mem_enumPairs (v : ℤ) :
    ∀ (l : List ℤ), v ∈ l → (firstIdx v l, v) ∈ enumPairs l := by
  intro l
  induction l with
  | nil => intro h; cases h
  | cons x rest ih =>
    intro hv
    by_cases hx : x = v
    · have : firstIdx v (x :: rest) = 0 := by
        simp only [firstIdx]
        rw [if_pos hx]
      rw [this, hx]
      exact List.mem_cons_self _ _
    · have hv' : v ∈ rest := by
        rcases List.mem_cons.mp hv with h | h
        · exact absurd h.symm hx
        · exact h
      have : firstIdx v (x :: rest) = firstIdx v rest + 1 := by
        simp only [firstIdx]
        rw [if_neg hx]
      rw [this]
      exact List.mem_cons_of_mem _
        (List.mem_map.mpr ⟨(firstIdx v rest, v), ih hv', rfl⟩)

/-- The first occurrence is the least index holding the value. -/
theorem firstIdx_le_of_mem_enumPairs (v : ℤ) :
    ∀ (l : List ℤ) (j : ℕ), (j, v) ∈ enumPairs l → firstIdx v l ≤ j := by
  intro l
  induction l with
  | nil => intro j hj; cases hj
  | cons x rest ih =>
    intro j hj
    by_cases hx : x = v
    · have : firstIdx v (x :: rest) = 0 := by
        unfold firstIdx
        rw [if_pos hx]
      rw [this]
      exact Nat.zero_le _
    · have hfi : firstIdx v (x :: rest) = firstIdx v rest + 1 := by
        simp only [firstIdx]
        rw [if_neg hx]
      rcases List.mem_cons.mp hj with h | h
      · exact absurd (congrArg Prod.snd h).symm hx
      · obtain ⟨q, hq, hpq⟩ := List.mem_map.mp h
        have hj1 : j = q.1 + 1 := (congrArg Prod.fst hpq).symm
        have hq2 : q.2 = v := congrArg Prod.snd hpq
        rw [hfi, hj1]
        exact Nat.succ_le_succ (ih q.1 (by rw [← hq2]; exact hq))

/-- In a list of index/value pairs sorted by `pairLE`, the entry at
position "number of values strictly below `v`" is the pair carrying `v`
with the least original index. -/
theorem sorted_get_countP_lt (v : ℤ) :
    ∀ L : List (ℕ × ℤ), L.Sorted pairLE →
      ∀ i : ℕ, (i, v) ∈ L → (∀ j : ℕ, (j, v) ∈ L → i ≤ j) →
        L.get? (L.countP (fun p => decide (p.2 < v))) = some (i, v) := by
  intro L
  induction L with
  | nil => intro _ i hmem _; cases hmem
  | cons p rest ih =>
    intro hs i hmem hmin
    have hs' := List.sorted_cons.mp hs
    by_cases hp : p.2 < v
    · have hcount : (p :: rest).countP (fun q => decide (q.2 < v))
          = rest.countP (fun q => decide (q.2 < v)) + 1 :=
        List.countP_cons_of_pos _ _ (decide_eq_true hp)
      have hpv : p ≠ (i, v) := by
        intro he
        rw [he] at hp
        exact absurd rfl (ne_of_lt hp)
      have hmem' : (i, v) ∈ rest := by
        rcases List.mem_cons.mp hmem with h | h
        · exact absurd h.symm hpv
        · exact h
      rw [hcount]
      show rest.get? (rest.countP (fun q => decide (q.2 < v))) = some (i, v)
      exact ih hs'.2 i hmem' (fun j hj => hmin j (List.mem_cons_of_mem _ hj))
    · have h0 : rest.countP (fun q => decide (q.2 < v)) = 0 := by
        refine List.countP_eq_zero.mpr ?_
        intro q hq
        have hle : p.2 ≤ q.2 := by
          rcases hs'.1 q hq with h | ⟨h, _⟩
          · exact le_of_lt h
          · exact le_of_eq h
        simp only [decide_eq_true_eq]
        intro hqv
        exact hp (lt_of_le_of_lt hle hqv)
      have hcount : (p :: rest).countP (fun q => decide (q.2 < v)) = 0 := by
        rw [List.countP_cons_of_neg _ _ (by
          simp only [decide_eq_true_eq]
          exact hp), h0]
      rw [hcount]
      show some p = some (i, v)
      congr 1
      rcases List.mem_cons.mp hmem with h | h
      · exact h.symm
      · rcases hs'.1 _ h with h2 | ⟨h2, h3⟩
        · exact absurd h2 hp
        · have h2' : p.2 = v := h2
          have h3' : p.1 ≤ i := h3
          have hp1 : p = (p.1, v) := by
            rw [← h2']
          have hi1 : i ≤ p.1 := hmin p.1 (by
            rw [← hp1]
            exact List.mem_cons_self _ _)
          have : p.1 = i := le_antisymm h3' hi1
          rw [hp1, this]

/-- The NumPy pipeline `argsort(match_IDs)[searchsorted(sorted values, v)]`
(with a stable argsort) selects the first occurrence of `v` in
`match_IDs`. -/
theorem argsort_searchsorted_firstIdx (mIDs : List ℤ) (v : ℤ) (hv : v ∈ mIDs) :
    (argsort mIDs).getD (searchsorted ((argsort mIDs).map (fun i => mIDs.getD i 0)) v) 0
      = firstIdx v mIDs := by
  have hperm : (List.insertionSort pairLE (enumPairs mIDs)).Perm (enumPairs mIDs) :=
    List.perm_insertionSort _ _
  have hsorted : (List.insertionSort pairLE (enumPairs mIDs)).Sorted pairLE :=
    List.sorted_insertionSort _ _
  have hvals : (argsort mIDs).map (fun i => mIDs.getD i 0)
      = (List.insertionSort pairLE (enumPairs mIDs)).map Prod.snd := by
    show ((List.insertionSort pairLE (enumPairs mIDs)).map Prod.fst).map (fun i => mIDs.getD i 0)
      = _
    rw [List.map_map]
    exact List.map_congr_left (fun p hp => getD_of_mem_enumPairs 0 mIDs p (hperm.subset hp))
  have hsearch : searchsorted ((List.insertionSort pairLE (enumPairs mIDs)).map Prod.snd) v
      = (List.insertionSort pairLE (enumPairs mIDs)).countP (fun p => decide (p.2 < v)) := by
    unfold searchsorted
    rw [List.countP_map]
    rfl
  have hcount := sorted_get_countP_lt v (List.insertionSort pairLE (enumPairs mIDs)) hsorted
    (firstIdx v mIDs)
    (hperm.mem_iff.mpr (firstIdx_mem_enumPairs v mIDs hv))
    (fun j hj => firstIdx_le_of_mem_enumPairs v mIDs j (hperm.subset hj))
  show ((List.insertionSort pairLE (enumPairs mIDs)).map Prod.fst).getD _ 0 = _
  rw [hvals, hsearch, List.getD_eq_getElem?_getD, List.getElem?_map,
    ← List.get?_eq_getElem?, hcount]
  rfl

/-- Before the first occurrence of `v` there is no `v`. -/
theorem getD_ne_of_lt_firstIdx (v : ℤ) :
    ∀ (l : List ℤ) (j : ℕ), j < firstIdx v l → l.getD j 0 ≠ v := by
  intro l
  induction l with
  | nil =>
    intro j hj
    simp only [firstIdx] at hj
    exact absurd hj (Nat.not_lt_zero j)
  | cons x rest ih =>
    intro j hj
    by_cases hx : x = v
    · rw [show firstIdx v (x :: rest) = 0 from by
        simp only [firstIdx]
        rw [if_pos hx]] at hj
      exact absurd hj (Nat.not_lt_zero j)
    · rw [show firstIdx v (x :: rest) = firstIdx v rest + 1 from by
        simp only [firstIdx]
        rw [if_neg hx]] at hj
      cases j with
      | zero => exact hx
      | succ k => exact ih k (Nat.lt_of_succ_lt_succ hj)

/-- Claim C5: `match_ids` maps each input id to the lowest-index (first
occurrence) matching row of `match_IDs`; an unmatched id yields `-1` when
`require_in_match` is false and an error (`none`) when it is true.  The
`firstIdx` characterization (value found there, no earlier occurrence) and
the three concrete examples of the claim are included. -/
theorem C5_match_ids_first_occurrence (IDs mIDs : List ℤ) :
    ((∀ v ∈ IDs, v ∈ mIDs) → ∀ req : Bool,
        match_ids IDs mIDs req = some (IDs.map (fun v => (firstIdx v mIDs : ℤ))))
  ∧ match_ids IDs mIDs false
      = some (IDs.map (fun v => if v ∈ mIDs then (firstIdx v mIDs : ℤ) else -1))
  ∧ ((∃ v ∈ IDs, v ∉ mIDs) → match_ids IDs mIDs true = none)
  ∧ (∀ v ∈ mIDs, mIDs.getD (firstIdx v mIDs) 0 = v
       ∧ ∀ j : ℕ, j < firstIdx v mIDs → mIDs.getD j 0 ≠ v)
  ∧ match_ids [5, 7] [7, 5, 5] true = some [1, 0]
  ∧ match_ids [9] [7, 5] false = some [-1]
  ∧ match_ids [9] [7, 5] true = none := by
  have hrow : ∀ v ∈ mIDs,
      ((argsort mIDs).getD
        (searchsorted ((argsort mIDs).map (fun i => mIDs.getD i 0)) v) 0 : ℤ)
      = (firstIdx v mIDs : ℤ) :=
    fun v hv => congrArg _ (argsort_searchsorted_firstIdx mIDs v hv)
  refine ⟨?_, ?_, ?_, ?_, by decide, by decide, by decide⟩
  · intro hall req
    have hany : IDs.any (fun v => !(mIDs.contains v)) = false := by
      rw [List.any_eq_false]
      intro v hv
      simp only [Bool.not_eq_true', Bool.not_eq_false]
      exact List.elem_eq_true_of_mem (hall v hv)
    unfold match_ids
    rw [hany, Bool.and_false]
    simp only [Bool.false_eq_true, if_false]
    congr 1
    refine List.map_congr_left ?_
    intro v hv
    rw [if_pos (List.elem_eq_true_of_mem (hall v hv))]
    exact hrow v (hall v hv)
  · unfold match_ids
    rw [Bool.false_and]
    simp only [Bool.false_eq_true, if_false]
    congr 1
    refine List.map_congr_left ?_
    intro v _
    by_cases hv : v ∈ mIDs
    · rw [if_pos (List.elem_eq_true_of_mem hv), if_pos hv]
      exact hrow v hv
    · have hc : mIDs.contains v = false := by
        simp
        exact hv
      rw [if_neg (by rw [hc]; exact Bool.false_ne_true), if_neg hv]
  · rintro ⟨v, hv, hnot⟩
    have hany : IDs.any (fun v => !(mIDs.contains v)) = true := by
      rw [List.any_eq_true]
      refine ⟨v, hv, ?_⟩
      simp only [Bool.not_eq_true']
      simp
      exact hnot
    unfold match_ids
    rw [hany, Bool.and_true]
    rfl
  · intro v hv
    exact ⟨getD_of_mem_enumPairs 0 mIDs _ (firstIdx_mem_enumPairs v mIDs hv),
      getD_ne_of_lt_firstIdx v mIDs⟩

/-- Witness for C5 at the claim's concrete input `[5,7]` vs `[7,5,5]`:
every id matches, so strict matching returns the first-occurrence rows. -/
theorem C5_match_ids_first_occurrence_witness :
    match_ids [5, 7] [7, 5, 5] true
      = some ([5, 7].map (fun v => (firstIdx v [7, 5, 5] : ℤ))) :=
  (C5_match_ids_first_occurrence [5, 7] [7, 5, 5]).1 (by decide) true
